import Mathlib

/-!
Verification development for the personalized-learning-copilot repository.

The file shallowly embeds the parts of the repository that the checked
statements are about:

* the learning-plan activity-generation snippets documented in
  `FIXED_LEARNING_PLAN.md` (the capped path and the weekly profile-based path);
* the query-parameter building and fallback logic of
  `frontend/src/services/content.js` (`getContent`, `getRecommendations`,
  `searchContent`);
* the scraping-and-indexing pipeline (Resource Indexer, Rate-Limited Fetcher,
  Content Analyzer, Vector Store Indexer).  The Python implementation of that
  pipeline is not part of the source tree — only its design documents are — so
  those components are modelled from the specification, as marked on each
  definition.

Definitions come first, then the theorems about them.
-/

namespace PLC

/-! ## Learning-plan activity generation (`FIXED_LEARNING_PLAN.md`) -/

/-- Embeds the original capped code path of
`backend/api/learning_plan_routes.py` quoted in `FIXED_LEARNING_PLAN.md`:
`activity_days = min(days, 14) if days > 14 else days`. -/
def activity_days (days : Nat) : Nat :=
  if days > 14 then min days 14 else days

/-- Day numbers for which the capped code path generates activities:
days `1 .. activity_days days`. -/
def cappedPlanDays (days : Nat) : List Nat :=
  List.range' 1 (activity_days days)

/-- Embeds `weeks_in_period = (days + 6) // 7` (ceiling division to get full
weeks) from the weekly code path quoted in `FIXED_LEARNING_PLAN.md`. -/
def weeks_in_period (days : Nat) : Nat :=
  (days + 6) / 7

/-- Modelled from the spec: `plan_generator.generate_plan` invoked with
`days=7, is_weekly_plan=True` produces a weekly plan whose activities carry
day numbers `1 .. 7`.  The generator itself lives outside the source tree;
only its weekly use is documented. -/
def weeklyPlanActivityDays : List Nat :=
  List.range' 1 7

/-- Embeds the weekly (profile-based) code path quoted in
`FIXED_LEARNING_PLAN.md`: one 7-day weekly plan per `week_num` in
`range(weeks_in_period)`, each activity day offset by
`activity["day"] + week_num * 7`. -/
def fullPeriodPlanDays (days : Nat) : List Nat :=
  (List.range (weeks_in_period days)).flatMap
    (fun week_num => weeklyPlanActivityDays.map (fun d => d + week_num * 7))

/-! ## Query-parameter building in `frontend/src/services/content.js` -/

/-- Query parameters assembled by the content-service functions before the
API call.  `none` models a key that is absent from the JS `params` object. -/
structure ContentQueryParams where
  page : Nat
  limit : Nat
  query : Option String
  subject : Option String
  content_type : Option String
  difficulty : Option String
  grade_level : Option Nat
deriving DecidableEq, Repr

/-- JavaScript truthiness of an optional string argument: `null` and the
empty string are falsy, every other string is truthy. -/
def truthyStr : Option String → Bool
  | none => false
  | some s => !(s == "")

/-- JavaScript truthiness of an optional numeric argument: `null` and `0`
are falsy. -/
def truthyNat : Option Nat → Bool
  | none => false
  | some n => !(n == 0)

/-- Embeds the subject block shared by `getContent`, `getRecommendations`
and `searchContent` in `content.js`:
`if (subject) { if (subject === "Maths") { params.subject = "Maths"; } else { params.subject = subject; } }`. -/
def applySubject (params : ContentQueryParams) (subject : Option String) :
    ContentQueryParams :=
  if truthyStr subject then
    match subject with
    | some s =>
        if s == "Maths" then { params with subject := some "Maths" }
        else { params with subject := some s }
    | none => params
  else params

/-- The subject block as the spec reads it: inside the truthiness guard the
conditional is replaced by the unconditional assignment
`params.subject = subject`. -/
def applySubjectUncond (params : ContentQueryParams) (subject : Option String) :
    ContentQueryParams :=
  if truthyStr subject then
    match subject with
    | some s => { params with subject := some s }
    | none => params
  else params

/-- Embeds `if (contentType) params.content_type = contentType` (and the
analogous lines for `difficulty`). -/
def applyOptStr (params : ContentQueryParams)
    (set : ContentQueryParams → String → ContentQueryParams)
    (v : Option String) : ContentQueryParams :=
  if truthyStr v then
    match v with
    | some s => set params s
    | none => params
  else params

/-- Embeds `if (gradeLevel) params.grade_level = gradeLevel`. -/
def applyOptNat (params : ContentQueryParams)
    (set : ContentQueryParams → Nat → ContentQueryParams)
    (v : Option Nat) : ContentQueryParams :=
  if truthyNat v then
    match v with
    | some n => set params n
    | none => params
  else params

/-- Query parameters built by `getContent` in `content.js`. -/
def getContentParams (subject contentType difficulty : Option String)
    (gradeLevel : Option Nat) (page limit : Nat) : ContentQueryParams :=
  let params : ContentQueryParams :=
    { page := page, limit := limit, query := none, subject := none,
      content_type := none, difficulty := none, grade_level := none }
  let params := applySubject params subject
  let params := applyOptStr params (fun p s => { p with content_type := some s }) contentType
  let params := applyOptStr params (fun p s => { p with difficulty := some s }) difficulty
  applyOptNat params (fun p n => { p with grade_level := some n }) gradeLevel

/-- Query parameters built by `getRecommendations` in `content.js`. -/
def getRecommendationsParams (subject : Option String) (page limit : Nat) :
    ContentQueryParams :=
  let params : ContentQueryParams :=
    { page := page, limit := limit, query := none, subject := none,
      content_type := none, difficulty := none, grade_level := none }
  applySubject params subject

/-- Query parameters built by `searchContent` in `content.js`. -/
def searchContentParams (query : String) (subject contentType : Option String)
    (page limit : Nat) : ContentQueryParams :=
  let params : ContentQueryParams :=
    { page := page, limit := limit, query := some query, subject := none,
      content_type := none, difficulty := none, grade_level := none }
  let params := applySubject params subject
  applyOptStr params (fun p s => { p with content_type := some s }) contentType

/-- An error raised by the `api` client (`api.get` rejecting). -/
structure ApiError where
  status : Nat
  message : String
deriving DecidableEq, Repr

/-- A content item returned by the backend; its payload is opaque to the
service layer. -/
structure ContentItem where
  payload : String
deriving DecidableEq, Repr

/-- The `api.get(endpoint, params)` collaborator: either resolves with a
list of items or rejects with an error. -/
def ApiGet : Type :=
  String → ContentQueryParams → Except ApiError (List ContentItem)

/-- Embeds `getRecommendations` of `content.js` in the `Except` monad:
try `/content/recommendations`; on rejection fall back to `/content` with
the same `params`; if the fallback also rejects, the outer catch returns
the empty array (`return []`) instead of rethrowing. -/
def getRecommendations (api : ApiGet) (subject : Option String)
    (page limit : Nat) : Except ApiError (List ContentItem) :=
  let params := getRecommendationsParams subject page limit
  match api "/content/recommendations" params with
  | .ok result => .ok result
  | .error _ =>
      match api "/content" params with
      | .ok fallbackResult => .ok fallbackResult
      | .error _ => .ok []

/-! ## Resource Indexer

The Python implementation (`edu_resource_indexer.py` / `two_step_scraper.py`)
is not part of the source tree; the model below follows the data model and
contract in the design document and the specification. -/

/-- Modelled from the spec: a `ResourceRecord` of the Resource Index data
model — `id` is a stable hash of the url, `discovered_at` a timestamp
(modelled as a simulated-clock `Nat`). -/
structure ResourceRecord where
  id : String
  title : String
  url : String
  subject : String
  age_group : String
  discovered_at : Nat
deriving DecidableEq, Repr

/-- Modelled from the spec: `AgeGroupBucket = {count, resources}`. -/
structure AgeGroupBucket where
  count : Nat
  resources : List ResourceRecord
deriving DecidableEq, Repr

/-- Modelled from the spec:
`SubjectBucket = {count, age_groups, resources}`. -/
structure SubjectBucket where
  count : Nat
  age_groups : List (String × AgeGroupBucket)
  resources : List ResourceRecord
deriving DecidableEq, Repr

/-- Modelled from the spec:
`ResourceIndex = {created_at, total_resources, subjects}`.  The maps are
association lists keyed by subject / age-group name. -/
structure ResourceIndex where
  created_at : Nat
  total_resources : Nat
  subjects : List (String × SubjectBucket)
deriving DecidableEq, Repr

/-- An index with no resources, as created on the first run. -/
def ResourceIndex.empty (now : Nat) : ResourceIndex :=
  { created_at := now, total_resources := 0, subjects := [] }

/-- Appending a newly discovered record to an age-group bucket keeps the
`count` in step with the `resources` list. -/
def AgeGroupBucket.insert (b : AgeGroupBucket) (r : ResourceRecord) :
    AgeGroupBucket :=
  { count := b.count + 1, resources := b.resources ++ [r] }

/-- Inserts a record into the age-group map, creating the bucket if the
record's age group is not present yet. -/
def insertAgeGroup (m : List (String × AgeGroupBucket)) (r : ResourceRecord) :
    List (String × AgeGroupBucket) :=
  match m with
  | [] => [(r.age_group, { count := 1, resources := [r] })]
  | (k, b) :: rest =>
      if k = r.age_group then (k, b.insert r) :: rest
      else (k, b) :: insertAgeGroup rest r

/-- Appending a newly discovered record to a subject bucket: the subject's
flat list, its count and the nested age-group bucket are all updated. -/
def SubjectBucket.insert (b : SubjectBucket) (r : ResourceRecord) :
    SubjectBucket :=
  { count := b.count + 1,
    age_groups := insertAgeGroup b.age_groups r,
    resources := b.resources ++ [r] }

/-- Inserts a record into the subject map, creating the bucket if the
record's subject is not present yet. -/
def insertSubject (m : List (String × SubjectBucket)) (r : ResourceRecord) :
    List (String × SubjectBucket) :=
  match m with
  | [] => [(r.subject,
      { count := 1,
        age_groups := [(r.age_group, { count := 1, resources := [r] })],
        resources := [r] })]
  | (k, b) :: rest =>
      if k = r.subject then (k, b.insert r) :: rest
      else (k, b) :: insertSubject rest r

/-- Adds one newly discovered record to the index, updating
`total_resources`. -/
def ResourceIndex.insert (idx : ResourceIndex) (r : ResourceRecord) :
    ResourceIndex :=
  { idx with
      total_resources := idx.total_resources + 1,
      subjects := insertSubject idx.subjects r }

/-- All records stored in the index (flattening the subject buckets). -/
def ResourceIndex.allResources (idx : ResourceIndex) : List ResourceRecord :=
  (idx.subjects.map (fun p => p.2.resources)).flatten

/-- Whether a record with the given id is already present in the index. -/
def ResourceIndex.hasId (idx : ResourceIndex) (i : String) : Bool :=
  idx.allResources.any (fun r => r.id == i)

/-- The ids stored in the index, in storage order. -/
def ResourceIndex.idList (idx : ResourceIndex) : List String :=
  idx.allResources.map (fun r => r.id)

/-- Modelled from the spec: resumable merge step — a rediscovered id keeps
its existing record (and hence its original `discovered_at`); only records
with new ids are inserted. -/
def ResourceIndex.addNew (idx : ResourceIndex) (r : ResourceRecord) :
    ResourceIndex :=
  if idx.hasId r.id then idx else idx.insert r

/-- Merges a list of freshly discovered records into an existing index,
deduplicating by id. -/
def updateIndex (idx : ResourceIndex) (found : List ResourceRecord) :
    ResourceIndex :=
  found.foldl ResourceIndex.addNew idx

/-- Modelled from the spec: age groups that only represent an unstructured
"all years" catalog are excluded; only specific bounded age bands (such as
"Years F-2") are retained. -/
def isBoundedAgeBand (ag : String) : Bool :=
  !(ag == "All Years")

/-- Modelled from the spec: the id of a discovered resource is a stable
hash of its url, so rediscovering the same url always yields the same id. -/
def hashId (url : String) : String :=
  "id-" ++ url

/-- A listing source: for a subject and an age group, the urls and titles
of the resource links its listing pages yield.  An unchanged source is one
fixed such function. -/
def ListingSource : Type :=
  String → String → List (String × String)

/-- Builds the `ResourceRecord` for a link discovered under a given subject
and age group at simulated time `now`. -/
def mkRecord (subject ag : String) (now : Nat) (link : String × String) :
    ResourceRecord :=
  { id := hashId link.1, title := link.2, url := link.1,
    subject := subject, age_group := ag, discovered_at := now }

/-- Modelled from the spec: the discovery walk — every configured subject,
every bounded age group of that subject (unstructured "all years" groups
are excluded), every link the source yields for the pair. -/
def discoveredRecords (subjects : List String) (ageGroups : String → List String)
    (source : ListingSource) (now : Nat) : List ResourceRecord :=
  subjects.flatMap (fun s =>
    ((ageGroups s).filter isBoundedAgeBand).flatMap (fun ag =>
      (source s ag).map (mkRecord s ag now)))

/-- Modelled from the spec: `buildIndex` — discover resources for all
subject × age-group combinations and merge them into the existing index
(resumable augment, never discarding prior work). -/
def buildIndex (subjects : List String) (ageGroups : String → List String)
    (source : ListingSource) (now : Nat) (existing : ResourceIndex) :
    ResourceIndex :=
  updateIndex existing (discoveredRecords subjects ageGroups source now)

/-- Well-formedness of an age-group bucket: `count` equals the length of
`resources`. -/
def AgeGroupBucket.wf (b : AgeGroupBucket) : Bool :=
  b.count == b.resources.length

/-- Well-formedness of a subject bucket: its own `count` equals the length
of its `resources` list and every nested age-group bucket is well formed. -/
def SubjectBucket.wf (b : SubjectBucket) : Bool :=
  (b.count == b.resources.length) && b.age_groups.all (fun p => p.2.wf)

/-- Well-formedness of the whole index: every bucket's `count` matches its
`resources` list and `total_resources` is the sum of the subject counts. -/
def ResourceIndex.wf (idx : ResourceIndex) : Bool :=
  idx.subjects.all (fun p => p.2.wf) &&
    (idx.total_resources == (idx.subjects.map (fun p => p.2.count)).sum)

/-- Whether every record in the index carries a concrete bounded age band. -/
def ResourceIndex.allBounded (idx : ResourceIndex) : Bool :=
  idx.allResources.all (fun r => isBoundedAgeBand r.age_group)

/-! ## Rate-Limited Fetcher: retry policy

Modelled from the spec: `fetch(url, kind) -> PageResult | FetchError`, with
transient failures (timeout, 5xx, connection reset) retried up to `N` times
with exponential backoff and jitter, and permanent failures (404, malformed
content) returned as typed errors without retry. -/

/-- The transient failure kinds of the error taxonomy. -/
inductive TransientKind where
  | timeout
  | serverError
  | connectionReset
deriving DecidableEq, Repr

/-- The permanent failure kinds of the error taxonomy. -/
inductive PermanentKind where
  | notFound
  | malformedContent
deriving DecidableEq, Repr

/-- The rendered page a successful fetch returns. -/
structure PageResult where
  body : String
deriving DecidableEq, Repr

/-- Outcome of one attempt against the network, as produced by the
headless-browser collaborator. -/
inductive FetchOutcome where
  | success (page : PageResult)
  | transientErr (k : TransientKind)
  | permanentErr (k : PermanentKind)
deriving DecidableEq, Repr

/-- Typed result of `fetch` after the retry policy has run. -/
inductive FetchResult where
  | ok (page : PageResult)
  | transientFailure (k : TransientKind)
  | permanentFailure (k : PermanentKind)
deriving DecidableEq, Repr

/-- Whether a network outcome is a transient failure. -/
def FetchOutcome.isTransient : FetchOutcome → Bool
  | .transientErr _ => true
  | _ => false

/-- Modelled from the spec: the delay slept before re-attempting after
attempt `k` — exponential backoff (`base * 2 ^ k`) plus jitter. -/
def backoffDelay (base : Nat) (jitter : Nat → Nat) (k : Nat) : Nat :=
  base * 2 ^ k + jitter k

/-- Modelled from the spec: the retry loop.  `net a` is the outcome of
attempt number `a`; the function returns the typed result, the number of
attempts performed, and the list of backoff delays slept between attempts.
A success or a permanent failure stops the loop immediately; a transient
failure is retried while retries remain. -/
def fetchGo (net : Nat → FetchOutcome) (base : Nat) (jitter : Nat → Nat)
    (attempt retriesLeft : Nat) : FetchResult × Nat × List Nat :=
  match net attempt with
  | .success p => (.ok p, 1, [])
  | .permanentErr k => (.permanentFailure k, 1, [])
  | .transientErr k =>
      match retriesLeft with
      | 0 => (.transientFailure k, 1, [])
      | n + 1 =>
          let rest := fetchGo net base jitter (attempt + 1) n
          (rest.1, rest.2.1 + 1, backoffDelay base jitter attempt :: rest.2.2)

/-- Modelled from the spec: `fetch` with up to `retries` retries, starting
at attempt `0`. -/
def fetchWithRetry (net : Nat → FetchOutcome) (base : Nat)
    (jitter : Nat → Nat) (retries : Nat) : FetchResult × Nat × List Nat :=
  fetchGo net base jitter 0 retries

/-! ## Rate-Limited Fetcher: per-host pacing

Modelled from the spec: a fixed-delay per-host limiter shared by all
workers; each call to a host may start no earlier than the host's
`nextAllowed` time, and pushes `nextAllowed` to its start time plus the
configured minimum interval.  Concurrent callers are modelled as an
arbitrary arrival sequence serialized through this one shared limiter
state, on a simulated clock. -/

/-- Per-host limiter state: the earliest time the next request to each host
may start.  A host that is absent may start immediately. -/
structure LimiterState where
  nextAllowed : List (String × Nat)
deriving DecidableEq, Repr

/-- Looks a host up in the per-host table (0 if absent). -/
def getNextAllowed (m : List (String × Nat)) (host : String) : Nat :=
  match m with
  | [] => 0
  | (k, v) :: rest => if k = host then v else getNextAllowed rest host

/-- Updates a host's entry in the per-host table, inserting it if absent. -/
def setNextAllowed (m : List (String × Nat)) (host : String) (t : Nat) :
    List (String × Nat) :=
  match m with
  | [] => [(host, t)]
  | (k, v) :: rest =>
      if k = host then (k, t) :: rest
      else (k, v) :: setNextAllowed rest host t

/-- The earliest allowed start time recorded for a host (0 if none). -/
def LimiterState.get (st : LimiterState) (host : String) : Nat :=
  getNextAllowed st.nextAllowed host

/-- Records a new earliest allowed start time for a host. -/
def LimiterState.set (st : LimiterState) (host : String) (t : Nat) :
    LimiterState :=
  { nextAllowed := setNextAllowed st.nextAllowed host t }

/-- One fetch call entering the limiter at simulated time `now`: it starts
at `max now (nextAllowed host)` and pushes the host's `nextAllowed` to the
start time plus the minimum interval `d`. -/
def acquire (d : Nat) (st : LimiterState) (host : String) (now : Nat) :
    Nat × LimiterState :=
  let t := max now (st.get host)
  (t, st.set host (t + d))

/-- Runs a sequence of fetch calls `(host, arrival time)` through the
shared limiter, returning each call's host and actual start time. -/
def runRequests (d : Nat) (st : LimiterState)
    (reqs : List (String × Nat)) : List (String × Nat) :=
  match reqs with
  | [] => []
  | (host, now) :: rest =>
      let a := acquire d st host now
      (host, a.1) :: runRequests d a.2 rest

/-! ## Content Records and the Vector Store Indexer -/

/-- The content types of the `ContentRecord` data model. -/
inductive ContentType where
  | article
  | video
  | interactive
  | quiz
  | worksheet
  | lesson
  | activity
deriving DecidableEq, Repr

/-- String form of a content type, as serialized into the search schema. -/
def ContentType.toText : ContentType → String
  | .article => "article"
  | .video => "video"
  | .interactive => "interactive"
  | .quiz => "quiz"
  | .worksheet => "worksheet"
  | .lesson => "lesson"
  | .activity => "activity"

/-- The difficulty levels of the `ContentRecord` data model. -/
inductive DifficultyLevel where
  | beginner
  | intermediate
  | advanced
deriving DecidableEq, Repr

/-- String form of a difficulty level, as serialized into the search
schema. -/
def DifficultyLevel.toText : DifficultyLevel → String
  | .beginner => "beginner"
  | .intermediate => "intermediate"
  | .advanced => "advanced"

/-- The nested `metadata` object of a `ContentRecord`. -/
structure ContentMetadata where
  content_text : Option String
  transcription : Option String
  thumbnail_url : Option String
deriving DecidableEq, Repr

/-- An embedding vector; its numeric payload is opaque to the pipeline. -/
abbrev Embedding : Type :=
  List Int

/-- Modelled from the spec: the `ContentRecord` data model.  `embedding` is
`none` while absent (and stays `none` when the embedding service fails
persistently). -/
structure ContentRecord where
  id : String
  title : String
  description : String
  content_type : ContentType
  subject : String
  topics : List String
  url : String
  source : String
  difficulty_level : DifficultyLevel
  grade_level : List Nat
  duration_minutes : Option Nat
  keywords : List String
  created_at : Nat
  updated_at : Nat
  metadata : ContentMetadata
  embedding : Option Embedding
deriving DecidableEq, Repr

/-- A document shaped like the Azure Search schema of the design document:
no nested objects — the `metadata.*` fields are flattened into separate
top-level fields — and an optional `embedding` collection. -/
structure SearchDoc where
  id : String
  title : String
  description : String
  content_type : String
  subject : String
  topics : List String
  url : String
  source : String
  difficulty_level : String
  grade_level : List Nat
  duration_minutes : Option Nat
  keywords : List String
  created_at : Nat
  updated_at : Nat
  metadata_content_text : String
  metadata_transcription : String
  metadata_thumbnail_url : String
  page_content : String
  embedding : Option Embedding
deriving DecidableEq, Repr

/-- Modelled from the spec: the Vector Store Indexer's field mapping from a
`ContentRecord` onto the external search schema.  It is total: a record
with a null embedding is mapped (with `embedding` still null), never
rejected. -/
def mapToSchema (r : ContentRecord) : SearchDoc :=
  { id := r.id, title := r.title, description := r.description,
    content_type := r.content_type.toText, subject := r.subject,
    topics := r.topics, url := r.url, source := r.source,
    difficulty_level := r.difficulty_level.toText,
    grade_level := r.grade_level, duration_minutes := r.duration_minutes,
    keywords := r.keywords, created_at := r.created_at,
    updated_at := r.updated_at,
    metadata_content_text := r.metadata.content_text.getD "",
    metadata_transcription := r.metadata.transcription.getD "",
    metadata_thumbnail_url := r.metadata.thumbnail_url.getD "",
    page_content :=
      r.metadata.content_text.getD (r.title ++ " " ++ r.description),
    embedding := r.embedding }

/-- A mapped document with no embedding vector can be found by keyword
search only; the search index can match it on its searchable text fields
but never by vector similarity. -/
def keywordOnlySearchable (d : SearchDoc) : Bool :=
  d.embedding.isNone

/-- Modelled from the spec: forwarding a batch of content records to the
vector store — every record is mapped onto the schema; none is dropped. -/
def indexRecords (records : List ContentRecord) : List SearchDoc :=
  records.map mapToSchema

/-! ## Content Analyzer: embedding retries -/

/-- Modelled from the spec: the bounded-length composite text the embedding
is computed from — title + description + truncated content text, with
deterministic truncation to `maxLen` characters. -/
def compositeText (maxLen : Nat) (r : ContentRecord) : String :=
  (r.title ++ " " ++ r.description ++ " " ++
    r.metadata.content_text.getD "").take maxLen

/-- Modelled from the spec: the Analyzer's retry loop around the embedding
service.  `svc k text` is the service's answer on attempt `k`; attempts
`0 .. cap` are made in order and the first successful answer wins; if every
attempt fails the result stays `none`. -/
def retryEmbed (svc : Nat → String → Option Embedding) (text : String) :
    Nat → Option Embedding
  | 0 => svc 0 text
  | n + 1 =>
      match retryEmbed svc text n with
      | some e => some e
      | none => svc (n + 1) text

/-- Modelled from the spec: the Analyzer's embedding step — the record is
enriched with whatever the retried embedding call produced; on persistent
failure `embedding` is left null and the record is still forwarded. -/
def analyzeRecord (svc : Nat → String → Option Embedding) (cap maxLen : Nat)
    (r : ContentRecord) : ContentRecord :=
  { r with embedding := retryEmbed svc (compositeText maxLen r) cap }

/-! ## Vector Store Indexer: batched upsert with bisection -/

/-- The report `upsert` returns: the ids that were written and the ids that
failed. -/
structure UpsertReport where
  succeeded : List String
  failed : List String
deriving DecidableEq, Repr

/-- Modelled from the spec: one call to the external store's `upsertBatch`.
`fails r` says whether the store rejects record `r` (the synthetic-failure
oracle of the property test); a batch call succeeds iff no record in the
batch is rejected. -/
def upsertAttemptOk (fails : ContentRecord → Bool)
    (batch : List ContentRecord) : Bool :=
  !(batch.any fails)

/-- Modelled from the spec: the per-record fallback — each record is sent
in its own single-record call, so exactly the store-rejected records are
reported failed. -/
def perRecordUpsert (fails : ContentRecord → Bool)
    (batch : List ContentRecord) : UpsertReport :=
  match batch with
  | [] => { succeeded := [], failed := [] }
  | r :: rest =>
      let rep := perRecordUpsert fails rest
      if upsertAttemptOk fails [r] then
        { succeeded := r.id :: rep.succeeded, failed := rep.failed }
      else
        { succeeded := rep.succeeded, failed := r.id :: rep.failed }

/-- Modelled from the spec: handling of one batch — try the whole batch;
on failure bisect it and retry each half; a half that still fails falls
back to per-record upsert. -/
def upsertBatchBisect (fails : ContentRecord → Bool)
    (batch : List ContentRecord) : UpsertReport :=
  if upsertAttemptOk fails batch then
    { succeeded := batch.map (fun r => r.id), failed := [] }
  else
    let half := batch.length / 2
    let lhs := batch.take half
    let rhs := batch.drop half
    let repL :=
      if upsertAttemptOk fails lhs then
        { succeeded := lhs.map (fun r => r.id), failed := ([] : List String) }
      else perRecordUpsert fails lhs
    let repR :=
      if upsertAttemptOk fails rhs then
        { succeeded := rhs.map (fun r => r.id), failed := ([] : List String) }
      else perRecordUpsert fails rhs
    { succeeded := repL.succeeded ++ repR.succeeded,
      failed := repL.failed ++ repR.failed }

/-- Splits the records passed to `upsert` into batches of `size + 1`
records (the batch size is positive by construction). -/
def chunkRecords (size : Nat) (records : List ContentRecord) :
    List (List ContentRecord) :=
  match records with
  | [] => []
  | r :: rest =>
      (r :: rest.take size) :: chunkRecords size (rest.drop size)
termination_by records.length
decreasing_by
  simp only [List.length_cons, List.length_drop]
  omega

/-- Modelled from the spec: `upsert(records) -> UpsertReport` — the records
are batched, each batch goes through the bisecting handler, and the
per-batch reports are concatenated so succeeded/failed ids are tallied for
the whole call. -/
def upsert (fails : ContentRecord → Bool) (size : Nat)
    (records : List ContentRecord) : UpsertReport :=
  (chunkRecords size records).foldr
    (fun batch rep =>
      { succeeded := (upsertBatchBisect fails batch).succeeded ++ rep.succeeded,
        failed := (upsertBatchBisect fails batch).failed ++ rep.failed })
    { succeeded := [], failed := [] }

/-! ## Sample data used by the concrete witnesses -/

/-- A sample analyzed article record. -/
def sampleContent1 : ContentRecord :=
  { id := "c1", title := "Counting", description := "Counting to ten",
    content_type := .article, subject := "Mathematics",
    topics := ["numbers"], url := "https://example.org/counting",
    source := "ABC Education", difficulty_level := .beginner,
    grade_level := [1, 2], duration_minutes := some 10,
    keywords := ["counting"], created_at := 1, updated_at := 2,
    metadata := { content_text := some "one two three",
                  transcription := none, thumbnail_url := none },
    embedding := some [1, 2, 3] }

/-- A sample video record with no embedding yet. -/
def sampleContent2 : ContentRecord :=
  { id := "c2", title := "Shapes", description := "A video about shapes",
    content_type := .video, subject := "Mathematics",
    topics := ["geometry"], url := "https://example.org/shapes",
    source := "ABC Education", difficulty_level := .intermediate,
    grade_level := [3, 4], duration_minutes := none,
    keywords := ["shapes"], created_at := 3, updated_at := 4,
    metadata := { content_text := none,
                  transcription := some "a circle is round",
                  thumbnail_url := some "https://example.org/shapes.png" },
    embedding := none }

/-- A synthetic store-failure oracle: exactly the record with id "c2" is
rejected by the store. -/
def sampleFails (r : ContentRecord) : Bool :=
  r.id == "c2"

/-! ## Theorems -/

/-- C8: one learning-plan code path caps long-learning-period activity
generation at 14 days — for a requested period of `days > 14` it generates
activities exactly for days 1 through 14 — while the parallel profile-based
code path covers the full-length period by splitting it into 7-day weekly
segments and offsetting each activity's day number by `week_num * 7`. -/
theorem C8_learning_period_cap (days : Nat) (h : days > 14) :
    cappedPlanDays days = List.range' 1 14 ∧
    (∀ d ∈ cappedPlanDays days, d ≤ 14) ∧
    (∀ d, 1 ≤ d → d ≤ days → d ∈ fullPeriodPlanDays days) := by
  have hcap : cappedPlanDays days = List.range' 1 14 := by
    unfold cappedPlanDays activity_days
    rw [if_pos h, Nat.min_eq_right (by omega)]
  refine ⟨hcap, ?_, ?_⟩
  · intro d hd
    rw [hcap, List.mem_range'_1] at hd
    omega
  · intro d h1 h2
    unfold fullPeriodPlanDays weeklyPlanActivityDays weeks_in_period
    rw [List.mem_flatMap]
    refine ⟨(d - 1) / 7, ?_, ?_⟩
    · rw [List.mem_range]
      omega
    · rw [List.mem_map]
      refine ⟨d - (d - 1) / 7 * 7, ?_, by omega⟩
      rw [List.mem_range'_1]
      omega

/-- Witness for C8 at a concrete one-month period of 30 days. -/
theorem C8_learning_period_cap_witness :
    30 > 14 ∧
    (cappedPlanDays 30 = List.range' 1 14 ∧
      (∀ d ∈ cappedPlanDays 30, d ≤ 14) ∧
      (∀ d, 1 ≤ d → d ≤ 30 → d ∈ fullPeriodPlanDays 30)) :=
  ⟨by decide, C8_learning_period_cap 30 (by decide)⟩

/-- C9: `getRecommendations` never rejects — it always resolves with a
list: if the `/content/recommendations` call fails it falls back to
`/content` with the same parameters, and if that fallback also fails it
resolves with the empty array instead of propagating the error. -/
theorem C9_getRecommendations_never_throws (api : ApiGet)
    (subject : Option String) (page limit : Nat) :
    (∃ r, getRecommendations api subject page limit = .ok r) ∧
    (∀ e, api "/content/recommendations"
        (getRecommendationsParams subject page limit) = .error e →
      (∀ r, api "/content" (getRecommendationsParams subject page limit)
          = .ok r →
        getRecommendations api subject page limit = .ok r) ∧
      (∀ e', api "/content" (getRecommendationsParams subject page limit)
          = .error e' →
        getRecommendations api subject page limit = .ok [])) := by
  constructor
  · unfold getRecommendations
    cases h1 : api "/content/recommendations"
        (getRecommendationsParams subject page limit) with
    | ok r => exact ⟨r, by simp [h1]⟩
    | error e =>
        cases h2 : api "/content" (getRecommendationsParams subject page limit) with
        | ok r => exact ⟨r, by simp [h1, h2]⟩
        | error e' => exact ⟨[], by simp [h1, h2]⟩
  · intro e h1
    constructor
    · intro r h2
      unfold getRecommendations
      simp [h1, h2]
    · intro e' h2
      unfold getRecommendations
      simp [h1, h2]

/-- Witness for C9: a client that rejects every call still yields an `ok`
empty list through both fallbacks. -/
theorem C9_getRecommendations_never_throws_witness :
    (∃ r, getRecommendations
        (fun _ _ => .error { status := 500, message := "boom" })
        (some "Science") 1 100 = .ok r) ∧
    getRecommendations
        (fun _ _ => .error { status := 500, message := "boom" })
        (some "Science") 1 100 = .ok [] := by
  have h := C9_getRecommendations_never_throws
      (fun _ _ => .error { status := 500, message := "boom" })
      (some "Science") 1 100
  exact ⟨h.1, (h.2 { status := 500, message := "boom" } rfl).2
      { status := 500, message := "boom" } rfl⟩

/-- C10 counterexample: the claim quantifies over every non-null subject,
but for the non-null empty-string subject the JS truthiness guard skips the
assignment, so the built parameters do not carry the subject at all. -/
theorem C10_counterexample :
    (some "" : Option String) ≠ none ∧
    (getContentParams (some "") none none none 1 100).subject ≠ some "" ∧
    (getRecommendationsParams (some "") 1 100).subject ≠ some "" ∧
    (searchContentParams "q" (some "") none 1 100).subject ≠ some "" := by
  refine ⟨by decide, ?_, ?_, ?_⟩ <;> decide

/-- C10 (amended): in `getContent`, `getRecommendations` and
`searchContent` the special-case branch for subject "Maths" assigns exactly
the same value as the general branch — the subject block is equivalent to
the unconditional assignment `params.subject = subject` under the same
truthiness guard — and for every non-null, non-empty subject string the
built query parameters carry the given subject unchanged. -/
theorem C10_subject_special_case_redundant (str : String) (h : str ≠ "")
    (contentType difficulty : Option String) (gradeLevel : Option Nat)
    (query : String) (page limit : Nat) :
    (∀ params subject, applySubject params subject
        = applySubjectUncond params subject) ∧
    (getContentParams (some str) contentType difficulty gradeLevel
        page limit).subject = some str ∧
    (getRecommendationsParams (some str) page limit).subject = some str ∧
    (searchContentParams query (some str) contentType
        page limit).subject = some str := by
  have hequiv : ∀ params subject, applySubject params subject
      = applySubjectUncond params subject := by
    intro params subject
    unfold applySubject applySubjectUncond
    cases subject with
    | none => rfl
    | some s =>
        by_cases hm : s = "Maths"
        · subst hm; simp
        · simp [hm]
  have hsub : ∀ params : ContentQueryParams,
      (applySubject params (some str)).subject = some str := by
    intro params
    rw [hequiv]
    unfold applySubjectUncond
    have : truthyStr (some str) = true := by
      unfold truthyStr
      simpa using h
    simp [this]
  have hct : ∀ (params : ContentQueryParams) v,
      (applyOptStr params (fun p s => { p with content_type := some s })
          v).subject = params.subject := by
    intro params v
    unfold applyOptStr
    cases v with
    | none => simp [truthyStr]
    | some s => by_cases hs : truthyStr (some s) = true <;> simp [hs]
  have hdf : ∀ (params : ContentQueryParams) v,
      (applyOptStr params (fun p s => { p with difficulty := some s })
          v).subject = params.subject := by
    intro params v
    unfold applyOptStr
    cases v with
    | none => simp [truthyStr]
    | some s => by_cases hs : truthyStr (some s) = true <;> simp [hs]
  have hgl : ∀ (params : ContentQueryParams) v,
      (applyOptNat params (fun p n => { p with grade_level := some n })
          v).subject = params.subject := by
    intro params v
    unfold applyOptNat
    cases v with
    | none => simp [truthyNat]
    | some n => by_cases hn : truthyNat (some n) = true <;> simp [hn]
  refine ⟨hequiv, ?_, ?_, ?_⟩
  · unfold getContentParams
    rw [hgl, hdf, hct, hsub]
  · unfold getRecommendationsParams
    rw [hsub]
  · unfold searchContentParams
    rw [hct, hsub]

/-- Witness for C10 (amended) at the concrete subject "Maths". -/
theorem C10_subject_special_case_redundant_witness :
    "Maths" ≠ "" ∧
    ((∀ params subject, applySubject params subject
        = applySubjectUncond params subject) ∧
      (getContentParams (some "Maths") none none none 1 100).subject
          = some "Maths" ∧
      (getRecommendationsParams (some "Maths") 1 100).subject
          = some "Maths" ∧
      (searchContentParams "fractions" (some "Maths") none 1 100).subject
          = some "Maths") :=
  ⟨by decide,
    C10_subject_special_case_redundant "Maths" (by decide)
      none none none "fractions" 1 100⟩

/-! ### Resource Indexer: count invariants (C1) -/

/-- Inserting a record into an age-group bucket preserves its count
invariant. -/
theorem ageGroupBucket_insert_keeps_wf {b : AgeGroupBucket} (r : ResourceRecord)
    (h : b.wf = true) : (b.insert r).wf = true := by
  unfold AgeGroupBucket.wf AgeGroupBucket.insert at *
  simp only [beq_iff_eq] at h ⊢
  simp [h]

/-- Inserting a record into the age-group map preserves the count
invariant of every bucket. -/
theorem insertAgeGroup_wf {m : List (String × AgeGroupBucket)}
    (r : ResourceRecord) (h : ∀ p ∈ m, p.2.wf = true) :
    ∀ p ∈ insertAgeGroup m r, p.2.wf = true := by
  induction m with
  | nil =>
      intro p hp
      simp only [insertAgeGroup, List.mem_singleton] at hp
      simp [hp, AgeGroupBucket.wf]
  | cons hd tl ih =>
      obtain ⟨k, b⟩ := hd
      intro p hp
      simp only [insertAgeGroup] at hp
      by_cases hk : k = r.age_group
      · rw [if_pos hk] at hp
        rcases List.mem_cons.mp hp with h1 | h1
        · rw [h1]
          exact ageGroupBucket_insert_keeps_wf r (h (k, b) (List.mem_cons_self _ _))
        · exact h p (List.mem_cons_of_mem _ h1)
      · rw [if_neg hk] at hp
        rcases List.mem_cons.mp hp with h1 | h1
        · rw [h1]
          exact h (k, b) (List.mem_cons_self _ _)
        · exact ih (fun q hq => h q (List.mem_cons_of_mem _ hq)) p h1

/-- Inserting a record into a subject bucket preserves its count
invariants. -/
theorem subjectBucket_insert_keeps_wf {b : SubjectBucket} (r : ResourceRecord)
    (h : b.wf = true) : (b.insert r).wf = true := by
  unfold SubjectBucket.wf SubjectBucket.insert at *
  simp only [Bool.and_eq_true, List.all_eq_true, beq_iff_eq] at h ⊢
  obtain ⟨h1, h2⟩ := h
  refine ⟨by simp [h1], ?_⟩
  exact insertAgeGroup_wf r h2

/-- Inserting a record into the subject map preserves the count invariants
of every bucket. -/
theorem insertSubject_wf {m : List (String × SubjectBucket)}
    (r : ResourceRecord) (h : ∀ p ∈ m, p.2.wf = true) :
    ∀ p ∈ insertSubject m r, p.2.wf = true := by
  induction m with
  | nil =>
      intro p hp
      simp only [insertSubject, List.mem_singleton] at hp
      simp [hp, SubjectBucket.wf, AgeGroupBucket.wf]
  | cons hd tl ih =>
      obtain ⟨k, b⟩ := hd
      intro p hp
      simp only [insertSubject] at hp
      by_cases hk : k = r.subject
      · rw [if_pos hk] at hp
        rcases List.mem_cons.mp hp with h1 | h1
        · rw [h1]
          exact subjectBucket_insert_keeps_wf r (h (k, b) (List.mem_cons_self _ _))
        · exact h p (List.mem_cons_of_mem _ h1)
      · rw [if_neg hk] at hp
        rcases List.mem_cons.mp hp with h1 | h1
        · rw [h1]
          exact h (k, b) (List.mem_cons_self _ _)
        · exact ih (fun q hq => h q (List.mem_cons_of_mem _ hq)) p h1

/-- Inserting a record into the subject map increases the sum of the
subject counts by exactly one. -/
theorem insertSubject_countSum (m : List (String × SubjectBucket))
    (r : ResourceRecord) :
    ((insertSubject m r).map (fun p => p.2.count)).sum
      = (m.map (fun p => p.2.count)).sum + 1 := by
  induction m with
  | nil => simp [insertSubject]
  | cons hd tl ih =>
      obtain ⟨k, b⟩ := hd
      simp only [insertSubject]
      by_cases hk : k = r.subject
      · rw [if_pos hk]
        simp [SubjectBucket.insert]
        omega
      · rw [if_neg hk]
        simp only [List.map_cons, List.sum_cons, ih]
        omega

/-- Inserting a record into the index preserves the index invariant. -/
theorem resourceIndex_insert_keeps_wf {idx : ResourceIndex} (r : ResourceRecord)
    (h : idx.wf = true) : (idx.insert r).wf = true := by
  unfold ResourceIndex.wf ResourceIndex.insert at *
  simp only [Bool.and_eq_true, List.all_eq_true, beq_iff_eq] at h ⊢
  obtain ⟨h1, h2⟩ := h
  refine ⟨insertSubject_wf r h1, ?_⟩
  rw [insertSubject_countSum]
  omega

/-- The resumable merge step preserves the index invariant. -/
theorem resourceIndex_addNew_keeps_wf {idx : ResourceIndex} (r : ResourceRecord)
    (h : idx.wf = true) : (idx.addNew r).wf = true := by
  unfold ResourceIndex.addNew
  by_cases hh : idx.hasId r.id = true
  · simpa [hh]
  · simp only [Bool.not_eq_true] at hh
    simpa [hh] using resourceIndex_insert_keeps_wf r h

/-- Merging any list of discovered records preserves the index
invariant. -/
theorem updateIndex_wf {idx : ResourceIndex} (l : List ResourceRecord)
    (h : idx.wf = true) : (updateIndex idx l).wf = true := by
  induction l generalizing idx with
  | nil => exact h
  | cons hd tl ih => exact ih (resourceIndex_addNew_keeps_wf hd h)

/-- C1: in every `ResourceIndex` produced or updated by the Resource
Indexer, each `count` field equals the length of its corresponding
`resources` list (for every `SubjectBucket` and every `AgeGroupBucket`),
and `total_resources` equals the sum of the resource counts over all
subjects. -/
theorem C1_index_count_invariant (subjects : List String)
    (ageGroups : String → List String) (source : ListingSource)
    (now : Nat) (existing : ResourceIndex) (h : existing.wf = true) :
    (buildIndex subjects ageGroups source now existing).wf = true := by
  unfold buildIndex
  exact updateIndex_wf _ h

/-- Witness for C1: a concrete run over one subject starting from the
empty index. -/
theorem C1_index_count_invariant_witness :
    (ResourceIndex.empty 0).wf = true ∧
    (buildIndex ["Mathematics"] (fun _ => ["Years F-2", "All Years"])
        (fun _ ag =>
          if ag = "Years F-2" then [("https://ex.org/a", "A")]
          else [("https://ex.org/b", "B")])
        5 (ResourceIndex.empty 0)).wf = true :=
  ⟨by decide, C1_index_count_invariant _ _ _ _ _ (by decide)⟩

/-! ### Resource Indexer: idempotent re-index (C2) -/

/-- Membership in the flattened resources after inserting into the subject
map: exactly the old records plus the new one. -/
theorem mem_flatten_insertSubject {m : List (String × SubjectBucket)}
    {r a : ResourceRecord} :
    a ∈ ((insertSubject m r).map (fun p => p.2.resources)).flatten
      ↔ a ∈ (m.map (fun p => p.2.resources)).flatten ∨ a = r := by
  induction m with
  | nil => simp [insertSubject]
  | cons hd tl ih =>
      obtain ⟨k, b⟩ := hd
      simp only [insertSubject]
      by_cases hk : k = r.subject
      · rw [if_pos hk]
        simp only [List.map_cons, List.flatten_cons, List.mem_append,
          SubjectBucket.insert, List.mem_singleton]
        tauto
      · rw [if_neg hk]
        simp only [List.map_cons, List.flatten_cons, List.mem_append, ih]
        tauto

/-- Membership in an index's records after an insert. -/
theorem mem_allResources_insert {idx : ResourceIndex} {r a : ResourceRecord} :
    a ∈ (idx.insert r).allResources ↔ a ∈ idx.allResources ∨ a = r := by
  unfold ResourceIndex.insert ResourceIndex.allResources
  exact mem_flatten_insertSubject

/-- The inserted record's id becomes visible, and all previously present
ids stay visible. -/
theorem hasId_insert {idx : ResourceIndex} {r : ResourceRecord} {i : String} :
    (idx.insert r).hasId i = true ↔ idx.hasId i = true ∨ r.id = i := by
  unfold ResourceIndex.hasId
  simp only [List.any_eq_true, beq_iff_eq]
  constructor
  · rintro ⟨x, hx, hxi⟩
    rcases mem_allResources_insert.mp hx with h1 | h1
    · exact Or.inl ⟨x, h1, hxi⟩
    · rw [h1] at hxi
      exact Or.inr hxi
  · rintro (⟨x, hx, hxi⟩ | h1)
    · exact ⟨x, mem_allResources_insert.mpr (Or.inl hx), hxi⟩
    · exact ⟨r, mem_allResources_insert.mpr (Or.inr rfl), h1⟩

/-- Id visibility through the resumable merge step. -/
theorem hasId_addNew {idx : ResourceIndex} {r : ResourceRecord} {i : String} :
    (idx.addNew r).hasId i = true ↔ idx.hasId i = true ∨ r.id = i := by
  unfold ResourceIndex.addNew
  by_cases h : idx.hasId r.id = true
  · simp only [h, if_true]
    constructor
    · exact Or.inl
    · rintro (h1 | h1)
      · exact h1
      · rw [← h1]
        exact h
  · simp only [Bool.not_eq_true] at h
    simp only [h, Bool.false_eq_true, if_false]
    exact hasId_insert

/-- Id visibility through a whole merge: the old ids plus the ids of the
merged records. -/
theorem hasId_updateIndex {idx : ResourceIndex} {l : List ResourceRecord}
    {i : String} :
    (updateIndex idx l).hasId i = true
      ↔ idx.hasId i = true ∨ ∃ r ∈ l, r.id = i := by
  induction l generalizing idx with
  | nil => simp [updateIndex]
  | cons hd tl ih =>
      have step : updateIndex idx (hd :: tl) = updateIndex (idx.addNew hd) tl := rfl
      rw [step, ih, hasId_addNew]
      simp only [List.mem_cons]
      constructor
      · rintro ((h1 | h1) | ⟨x, hx, hxi⟩)
        · exact Or.inl h1
        · exact Or.inr ⟨hd, Or.inl rfl, h1⟩
        · exact Or.inr ⟨x, Or.inr hx, hxi⟩
      · rintro (h1 | ⟨x, hx | hx, hxi⟩)
        · exact Or.inl (Or.inl h1)
        · rw [hx] at hxi
          exact Or.inl (Or.inr hxi)
        · exact Or.inr ⟨x, hx, hxi⟩

/-- Merging records whose ids are all already present leaves the index
unchanged: existing records (and their `discovered_at`) are preserved, not
overwritten. -/
theorem updateIndex_eq_self {idx : ResourceIndex} {l : List ResourceRecord}
    (h : ∀ r ∈ l, idx.hasId r.id = true) : updateIndex idx l = idx := by
  induction l with
  | nil => rfl
  | cons hd tl ih =>
      have h1 : idx.addNew hd = idx := by
        unfold ResourceIndex.addNew
        simp [h hd (List.mem_cons_self _ _)]
      calc updateIndex idx (hd :: tl) = updateIndex (idx.addNew hd) tl := rfl
        _ = updateIndex idx tl := by rw [h1]
        _ = idx := ih (fun r hr => h r (List.mem_cons_of_mem _ hr))

/-- After a merge, every merged record's id is present in the index. -/
theorem updateIndex_covers {idx : ResourceIndex} {l : List ResourceRecord} :
    ∀ r ∈ l, (updateIndex idx l).hasId r.id = true := by
  intro r hr
  rw [hasId_updateIndex]
  exact Or.inr ⟨r, hr, rfl⟩

/-- Against an unchanged source, a re-discovery yields records with exactly
the ids of the first discovery (`id` is a stable hash of the url; only
`discovered_at` can differ). -/
theorem discoveredRecords_id_stable (subjects : List String)
    (ageGroups : String → List String) (source : ListingSource)
    (t1 t2 : Nat) :
    ∀ r ∈ discoveredRecords subjects ageGroups source t2,
      ∃ r' ∈ discoveredRecords subjects ageGroups source t1, r'.id = r.id := by
  intro r hr
  unfold discoveredRecords at hr ⊢
  simp only [List.mem_flatMap, List.mem_map] at hr
  obtain ⟨s, hs, ag, hag, link, hlink, hr⟩ := hr
  refine ⟨mkRecord s ag t1 link, ?_, ?_⟩
  · simp only [List.mem_flatMap, List.mem_map]
    exact ⟨s, hs, ag, hag, link, hlink, rfl⟩
  · rw [← hr]
    rfl

/-- C2: running the Resource Indexer twice against an unchanged source
yields an index with the same `total_resources` and an identical list of
`ResourceRecord` ids as running it once; every record present after the
first run — including its original `discovered_at` — is preserved, not
overwritten, by the second run. -/
theorem C2_idempotent_reindex (subjects : List String)
    (ageGroups : String → List String) (source : ListingSource)
    (t1 t2 : Nat) (existing : ResourceIndex) :
    (buildIndex subjects ageGroups source t2
        (buildIndex subjects ageGroups source t1 existing)).total_resources
      = (buildIndex subjects ageGroups source t1 existing).total_resources ∧
    (buildIndex subjects ageGroups source t2
        (buildIndex subjects ageGroups source t1 existing)).idList
      = (buildIndex subjects ageGroups source t1 existing).idList ∧
    ∀ r ∈ (buildIndex subjects ageGroups source t1 existing).allResources,
      ∃ r' ∈ (buildIndex subjects ageGroups source t2
          (buildIndex subjects ageGroups source t1 existing)).allResources,
        r'.id = r.id ∧ r'.discovered_at = r.discovered_at := by
  have key : buildIndex subjects ageGroups source t2
      (buildIndex subjects ageGroups source t1 existing)
      = buildIndex subjects ageGroups source t1 existing := by
    unfold buildIndex
    apply updateIndex_eq_self
    intro r hr
    obtain ⟨r', hr', hid⟩ :=
      discoveredRecords_id_stable subjects ageGroups source t1 t2 r hr
    rw [← hid]
    exact updateIndex_covers r' hr'
  rw [key]
  exact ⟨rfl, rfl, fun r hr => ⟨r, hr, rfl, rfl⟩⟩

/-- Witness for C2 at a concrete source, checking the preserved
`discovered_at` through two runs with different clocks. -/
theorem C2_idempotent_reindex_witness :
    (buildIndex ["Science"] (fun _ => ["Years 3-4"])
        (fun _ _ => [("https://ex.org/s", "S")]) 9
        (buildIndex ["Science"] (fun _ => ["Years 3-4"])
          (fun _ _ => [("https://ex.org/s", "S")]) 4
          (ResourceIndex.empty 0))).total_resources
      = (buildIndex ["Science"] (fun _ => ["Years 3-4"])
          (fun _ _ => [("https://ex.org/s", "S")]) 4
          (ResourceIndex.empty 0)).total_resources ∧
    (buildIndex ["Science"] (fun _ => ["Years 3-4"])
        (fun _ _ => [("https://ex.org/s", "S")]) 9
        (buildIndex ["Science"] (fun _ => ["Years 3-4"])
          (fun _ _ => [("https://ex.org/s", "S")]) 4
          (ResourceIndex.empty 0))).idList
      = (buildIndex ["Science"] (fun _ => ["Years 3-4"])
          (fun _ _ => [("https://ex.org/s", "S")]) 4
          (ResourceIndex.empty 0)).idList ∧
    ∀ r ∈ (buildIndex ["Science"] (fun _ => ["Years 3-4"])
        (fun _ _ => [("https://ex.org/s", "S")]) 4
        (ResourceIndex.empty 0)).allResources,
      ∃ r' ∈ (buildIndex ["Science"] (fun _ => ["Years 3-4"])
          (fun _ _ => [("https://ex.org/s", "S")]) 9
          (buildIndex ["Science"] (fun _ => ["Years 3-4"])
            (fun _ _ => [("https://ex.org/s", "S")]) 4
            (ResourceIndex.empty 0))).allResources,
        r'.id = r.id ∧ r'.discovered_at = r.discovered_at :=
  C2_idempotent_reindex ["Science"] (fun _ => ["Years 3-4"])
    (fun _ _ => [("https://ex.org/s", "S")]) 4 9 (ResourceIndex.empty 0)

/-! ### Resource Indexer: bounded age bands (C7) -/

/-- Every record produced by the discovery walk carries a bounded age band:
the unstructured "all years" groups are filtered out before any link is
compiled into a record. -/
theorem discoveredRecords_bounded (subjects : List String)
    (ageGroups : String → List String) (source : ListingSource) (now : Nat) :
    ∀ r ∈ discoveredRecords subjects ageGroups source now,
      isBoundedAgeBand r.age_group = true := by
  intro r hr
  unfold discoveredRecords at hr
  simp only [List.mem_flatMap, List.mem_map, List.mem_filter] at hr
  obtain ⟨s, hs, ag, ⟨hag, hbag⟩, link, hlink, hr⟩ := hr
  rw [← hr]
  exact hbag

/-- A record found in a merged index was either already there or was one of
the merged records. -/
theorem mem_allResources_updateIndex {idx : ResourceIndex}
    {l : List ResourceRecord} {a : ResourceRecord} :
    a ∈ (updateIndex idx l).allResources → a ∈ idx.allResources ∨ a ∈ l := by
  induction l generalizing idx with
  | nil => exact Or.inl
  | cons hd tl ih =>
      intro h
      have step : updateIndex idx (hd :: tl) = updateIndex (idx.addNew hd) tl := rfl
      rw [step] at h
      rcases ih h with h1 | h1
      · unfold ResourceIndex.addNew at h1
        by_cases hh : idx.hasId hd.id = true
        · simp only [hh, if_true] at h1
          exact Or.inl h1
        · simp only [Bool.not_eq_true] at hh
          simp only [hh, Bool.false_eq_true, if_false] at h1
          rcases mem_allResources_insert.mp h1 with h2 | h2
          · exact Or.inl h2
          · exact Or.inr (h2 ▸ List.mem_cons_self _ _)
      · exact Or.inr (List.mem_cons_of_mem _ h1)

/-- C7: the Resource Indexer retains only specific, bounded age-band
groupings — age groups representing an unstructured "all years" catalog are
excluded — so every `ResourceRecord` in the produced `ResourceIndex`
carries a concrete bounded band. -/
theorem C7_bounded_age_bands (subjects : List String)
    (ageGroups : String → List String) (source : ListingSource)
    (now : Nat) (existing : ResourceIndex)
    (h : existing.allBounded = true) :
    (buildIndex subjects ageGroups source now existing).allBounded = true := by
  unfold ResourceIndex.allBounded at h ⊢
  rw [List.all_eq_true] at h ⊢
  intro r hr
  unfold buildIndex at hr
  rcases mem_allResources_updateIndex hr with h1 | h1
  · exact h r h1
  · exact discoveredRecords_bounded subjects ageGroups source now r h1

/-- Witness for C7: a source offering both a bounded band and the "All
Years" catalog, starting from the empty index. -/
theorem C7_bounded_age_bands_witness :
    (ResourceIndex.empty 0).allBounded = true ∧
    (buildIndex ["English"] (fun _ => ["All Years", "Years 5-6"])
        (fun _ ag =>
          if ag = "All Years" then [("https://ex.org/all", "All")]
          else [("https://ex.org/e", "E")])
        7 (ResourceIndex.empty 0)).allBounded = true :=
  ⟨by decide, C7_bounded_age_bands _ _ _ _ _ (by decide)⟩

/-! ### Vector Store Indexer: upsert reports (C3) -/

/-- A store batch call succeeds exactly when no record in the batch is
rejected. -/
theorem upsertAttemptOk_iff {fails : ContentRecord → Bool}
    {batch : List ContentRecord} :
    upsertAttemptOk fails batch = true ↔ ∀ r ∈ batch, fails r = false := by
  unfold upsertAttemptOk
  simp

/-- The per-record fallback reports exactly the store-rejected records as
failed and all others as succeeded, in batch order. -/
theorem perRecordUpsert_eq (fails : ContentRecord → Bool)
    (batch : List ContentRecord) :
    perRecordUpsert fails batch =
      { succeeded := (batch.filter (fun r => !(fails r))).map (fun r => r.id),
        failed := (batch.filter fails).map (fun r => r.id) } := by
  induction batch with
  | nil => rfl
  | cons hd tl ih =>
      simp only [perRecordUpsert, ih]
      by_cases hf : fails hd = true
      · simp [upsertAttemptOk, hf, List.filter_cons]
      · simp only [Bool.not_eq_true] at hf
        simp [upsertAttemptOk, hf, List.filter_cons]

/-- Handling of one half after bisection (wholesale retry, falling back to
per-record upsert) also reports exactly the rejected records as failed. -/
theorem halfUpsert_eq (fails : ContentRecord → Bool)
    (l : List ContentRecord) :
    (if upsertAttemptOk fails l then
        { succeeded := l.map (fun r => r.id), failed := ([] : List String) }
      else perRecordUpsert fails l) =
      ({ succeeded := (l.filter (fun r => !(fails r))).map (fun r => r.id),
         failed := (l.filter fails).map (fun r => r.id) } : UpsertReport) := by
  by_cases hok : upsertAttemptOk fails l = true
  · rw [if_pos hok]
    have hall := upsertAttemptOk_iff.mp hok
    have hself : l.filter (fun r => !(fails r)) = l :=
      List.filter_eq_self.mpr (fun a ha => by simp [hall a ha])
    have hnil : l.filter fails = [] :=
      List.filter_eq_nil_iff.mpr (fun a ha => by simp [hall a ha])
    rw [hself, hnil]
    rfl
  · rw [if_neg hok]
    exact perRecordUpsert_eq fails l

/-- One batch through the bisecting handler reports exactly the rejected
records as failed and all others as succeeded. -/
theorem upsertBatchBisect_eq (fails : ContentRecord → Bool)
    (batch : List ContentRecord) :
    upsertBatchBisect fails batch =
      { succeeded := (batch.filter (fun r => !(fails r))).map (fun r => r.id),
        failed := (batch.filter fails).map (fun r => r.id) } := by
  unfold upsertBatchBisect
  by_cases hok : upsertAttemptOk fails batch = true
  · rw [if_pos hok]
    have hall := upsertAttemptOk_iff.mp hok
    have hself : batch.filter (fun r => !(fails r)) = batch :=
      List.filter_eq_self.mpr (fun a ha => by simp [hall a ha])
    have hnil : batch.filter fails = [] :=
      List.filter_eq_nil_iff.mpr (fun a ha => by simp [hall a ha])
    rw [hself, hnil]
    simp
  · rw [if_neg hok]
    simp only [halfUpsert_eq]
    have hfilt : ∀ p : ContentRecord → Bool,
        (batch.take (batch.length / 2)).filter p
            ++ (batch.drop (batch.length / 2)).filter p
          = batch.filter p := by
      intro p
      rw [← List.filter_append, List.take_append_drop]
    simp only [UpsertReport.mk.injEq]
    constructor <;> rw [← List.map_append, hfilt]

/-- The batching step partitions the records: flattening the batches gives
back the original record list. -/
theorem chunkRecords_flatten (n : Nat) (records : List ContentRecord) :
    (chunkRecords n records).flatten = records := by
  match records with
  | [] => simp [chunkRecords]
  | r :: rest =>
      have ih := chunkRecords_flatten n (rest.drop n)
      rw [chunkRecords]
      simp only [List.flatten_cons, ih, List.cons_append, List.cons.injEq,
        true_and]
      exact List.take_append_drop n rest
termination_by records.length
decreasing_by
  simp only [List.length_cons, List.length_drop]
  omega

/-- C3: for every list of records passed to `upsert` in which the store
rejects some record(s), the returned `UpsertReport` lists exactly the ids
of the rejected record(s) as failed and all other ids as succeeded — via
batching, bisection of a failing batch, and per-record fallback. -/
theorem C3_upsert_report_exact (fails : ContentRecord → Bool) (size : Nat)
    (records : List ContentRecord) (h : records.any fails = true) :
    (upsert fails size records).failed
        = (records.filter fails).map (fun r => r.id) ∧
    (upsert fails size records).succeeded
        = (records.filter (fun r => !(fails r))).map (fun r => r.id) := by
  have main : ∀ L : List (List ContentRecord),
      (L.foldr
        (fun batch rep =>
          { succeeded := (upsertBatchBisect fails batch).succeeded ++ rep.succeeded,
            failed := (upsertBatchBisect fails batch).failed ++ rep.failed })
        { succeeded := [], failed := [] }) =
      ({ succeeded := (L.flatten.filter (fun r => !(fails r))).map (fun r => r.id),
         failed := (L.flatten.filter fails).map (fun r => r.id) } : UpsertReport) := by
    intro L
    induction L with
    | nil => rfl
    | cons hd tl ihL =>
        simp only [List.foldr_cons]
        rw [ihL, upsertBatchBisect_eq]
        simp [List.filter_append]
  unfold upsert
  rw [main, chunkRecords_flatten]
  exact ⟨rfl, rfl⟩

/-- Witness for C3: a two-record batch in which the store rejects exactly
the second record. -/
theorem C3_upsert_report_exact_witness :
    ([sampleContent1, sampleContent2].any sampleFails = true) ∧
    ((upsert sampleFails 10 [sampleContent1, sampleContent2]).failed
        = ([sampleContent1, sampleContent2].filter sampleFails).map
            (fun r => r.id) ∧
      (upsert sampleFails 10 [sampleContent1, sampleContent2]).succeeded
        = ([sampleContent1, sampleContent2].filter
            (fun r => !(sampleFails r))).map (fun r => r.id)) :=
  ⟨by decide, C3_upsert_report_exact sampleFails 10
    [sampleContent1, sampleContent2] (by decide)⟩

/-! ### Content Analyzer / Vector Store Indexer: null embeddings (C4) -/

/-- If every attempt against the embedding service fails, the retried
embedding call yields nothing. -/
theorem retryEmbed_none {svc : Nat → String → Option Embedding}
    {text : String} (cap : Nat) (h : ∀ k, svc k text = none) :
    retryEmbed svc text cap = none := by
  induction cap with
  | zero => exact h 0
  | succ n ih =>
      unfold retryEmbed
      rw [ih]
      exact h (n + 1)

/-- C4: a `ContentRecord` whose embedding is still null after the
Analyzer's retries are exhausted is forwarded to the Vector Store Indexer,
accepted by it (mapped onto the search schema with its id intact), indexed
as keyword-searchable-only, and never dropped (the indexer emits one
document per forwarded record). -/
theorem C4_null_embedding_tolerated (svc : Nat → String → Option Embedding)
    (cap maxLen : Nat) (records : List ContentRecord) (r : ContentRecord)
    (hmem : r ∈ records)
    (hfail : ∀ k, svc k (compositeText maxLen r) = none) :
    (analyzeRecord svc cap maxLen r).embedding = none ∧
    mapToSchema (analyzeRecord svc cap maxLen r)
        ∈ indexRecords (records.map (analyzeRecord svc cap maxLen)) ∧
    keywordOnlySearchable (mapToSchema (analyzeRecord svc cap maxLen r))
        = true ∧
    (mapToSchema (analyzeRecord svc cap maxLen r)).id = r.id ∧
    (indexRecords (records.map (analyzeRecord svc cap maxLen))).length
        = records.length := by
  have hemb : (analyzeRecord svc cap maxLen r).embedding = none := by
    unfold analyzeRecord
    exact retryEmbed_none cap hfail
  refine ⟨hemb, ?_, ?_, rfl, ?_⟩
  · unfold indexRecords
    exact List.mem_map_of_mem _ (List.mem_map_of_mem _ hmem)
  · unfold keywordOnlySearchable mapToSchema
    rw [hemb]
    rfl
  · unfold indexRecords
    rw [List.length_map, List.length_map]

/-- Witness for C4: an embedding service that always fails, applied to a
one-record batch. -/
theorem C4_null_embedding_tolerated_witness :
    (sampleContent2 ∈ [sampleContent2]) ∧
    (∀ k : Nat, (fun (_ : Nat) (_ : String) => (none : Option Embedding)) k
        (compositeText 100 sampleContent2) = none) ∧
    ((analyzeRecord (fun _ _ => none) 3 100 sampleContent2).embedding = none ∧
      mapToSchema (analyzeRecord (fun _ _ => none) 3 100 sampleContent2)
          ∈ indexRecords
              ([sampleContent2].map (analyzeRecord (fun _ _ => none) 3 100)) ∧
      keywordOnlySearchable
          (mapToSchema (analyzeRecord (fun _ _ => none) 3 100 sampleContent2))
          = true ∧
      (mapToSchema (analyzeRecord (fun _ _ => none) 3 100
          sampleContent2)).id = sampleContent2.id ∧
      (indexRecords
          ([sampleContent2].map
            (analyzeRecord (fun _ _ => none) 3 100))).length
          = [sampleContent2].length) :=
  ⟨List.mem_singleton.mpr rfl, fun _ => rfl,
    C4_null_embedding_tolerated (fun _ _ => none) 3 100 [sampleContent2]
      sampleContent2 (List.mem_singleton.mpr rfl) (fun _ => rfl)⟩

/-! ### Rate-Limited Fetcher: retry policy (C5) -/

/-- The retry loop performs at most one attempt more than the retries it is
allowed. -/
theorem fetchGo_attempts_le (net : Nat → FetchOutcome) (base : Nat)
    (jitter : Nat → Nat) (n : Nat) :
    ∀ a, (fetchGo net base jitter a n).2.1 ≤ n + 1 := by
  induction n with
  | zero =>
      intro a
      unfold fetchGo
      cases net a <;> simp
  | succ n ih =>
      intro a
      unfold fetchGo
      cases net a with
      | success p => simp
      | permanentErr k => simp
      | transientErr k =>
          simp only []
          have := ih (a + 1)
          omega

/-- When every attempt fails transiently, the loop performs all retries,
sleeping the exponential-backoff-with-jitter delays between attempts, and
ends in a typed transient failure. -/
theorem fetchGo_all_transient (net : Nat → FetchOutcome) (base : Nat)
    (jitter : Nat → Nat) (kindF : Nat → TransientKind)
    (h : ∀ i, net i = .transientErr (kindF i)) (n : Nat) :
    ∀ a, fetchGo net base jitter a n
      = (.transientFailure (kindF (a + n)), n + 1,
          (List.range' a n).map (backoffDelay base jitter)) := by
  induction n with
  | zero =>
      intro a
      unfold fetchGo
      rw [h a]
      simp
  | succ n ih =>
      intro a
      unfold fetchGo
      rw [h a]
      dsimp only
      have harg : a + 1 + n = a + (n + 1) := by omega
      rw [ih (a + 1), harg, List.range'_succ]
      simp

/-- A permanent failure stops the loop at once: one attempt, no backoff,
a typed permanent error — whatever the retry budget. -/
theorem fetchGo_permanent (net : Nat → FetchOutcome) (base : Nat)
    (jitter : Nat → Nat) (a n : Nat) (k : PermanentKind)
    (h : net a = .permanentErr k) :
    fetchGo net base jitter a n = (.permanentFailure k, 1, []) := by
  unfold fetchGo
  rw [h]

/-- C5: for every call to fetch — on transient failures (timeout, 5xx,
connection reset) the Fetcher retries up to `retries` times with
exponential backoff and jitter, and on a permanent failure (404, malformed
content) on the first attempt it returns a typed error having performed
exactly one attempt, no retry and no backoff sleep. -/
theorem C5_fetch_retry_policy (net : Nat → FetchOutcome) (base : Nat)
    (jitter : Nat → Nat) (retries : Nat) :
    ((fetchWithRetry net base jitter retries).2.1 ≤ retries + 1) ∧
    (∀ kindF : Nat → TransientKind, (∀ i, net i = .transientErr (kindF i)) →
      fetchWithRetry net base jitter retries
        = (.transientFailure (kindF retries), retries + 1,
            (List.range retries).map (backoffDelay base jitter))) ∧
    (∀ k, net 0 = .permanentErr k →
      fetchWithRetry net base jitter retries
        = (.permanentFailure k, 1, [])) := by
  refine ⟨fetchGo_attempts_le net base jitter retries 0, ?_, ?_⟩
  · intro kindF h
    have hgo := fetchGo_all_transient net base jitter kindF h retries 0
    rw [List.range_eq_range']
    simpa using hgo
  · intro k h
    exact fetchGo_permanent net base jitter 0 retries k h

/-- Witness for C5: a host that times out on every attempt, with 2 retries,
base delay 100 and linear jitter. -/
theorem C5_fetch_retry_policy_witness :
    (∀ i : Nat, (fun (_ : Nat) => FetchOutcome.transientErr .timeout) i
        = .transientErr ((fun (_ : Nat) => TransientKind.timeout) i)) ∧
    fetchWithRetry (fun (_ : Nat) => FetchOutcome.transientErr .timeout) 100
        (fun k => k) 2
      = (.transientFailure ((fun (_ : Nat) => TransientKind.timeout) 2), 2 + 1,
          (List.range 2).map (backoffDelay 100 (fun k => k))) :=
  ⟨fun _ => rfl,
    (C5_fetch_retry_policy (fun (_ : Nat) => FetchOutcome.transientErr .timeout)
        100 (fun k => k) 2).2.1 (fun (_ : Nat) => TransientKind.timeout)
      (fun _ => rfl)⟩

/-! ### Rate-Limited Fetcher: per-host pacing (C6) -/

/-- Setting one host's entry reads back as written. -/
theorem getNextAllowed_set_same (m : List (String × Nat)) (host : String)
    (t : Nat) : getNextAllowed (setNextAllowed m host t) host = t := by
  induction m with
  | nil => simp [setNextAllowed, getNextAllowed]
  | cons hd tl ih =>
      obtain ⟨k, v⟩ := hd
      by_cases hk : k = host
      · simp [setNextAllowed, getNextAllowed, hk]
      · simp [setNextAllowed, getNextAllowed, hk, ih]

/-- Setting one host's entry leaves every other host's entry unchanged. -/
theorem getNextAllowed_set_other (m : List (String × Nat)) (host h' : String)
    (t : Nat) (hne : h' ≠ host) :
    getNextAllowed (setNextAllowed m host t) h' = getNextAllowed m h' := by
  induction m with
  | nil =>
      have hne' : host ≠ h' := fun hh => hne hh.symm
      simp [setNextAllowed, getNextAllowed, hne']
  | cons hd tl ih =>
      obtain ⟨k, v⟩ := hd
      by_cases hk : k = host
      · subst hk
        have hne' : k ≠ h' := fun hh => hne hh.symm
        simp [setNextAllowed, getNextAllowed, hne']
      · simp [setNextAllowed, getNextAllowed, hk, ih]

/-- An acquire call never lowers any host's earliest allowed start time. -/
theorem acquire_get_mono (d : Nat) (st : LimiterState) (host : String)
    (now : Nat) (h' : String) :
    st.get h' ≤ ((acquire d st host now).2).get h' := by
  unfold acquire LimiterState.get LimiterState.set
  by_cases hh : h' = host
  · subst hh
    rw [getNextAllowed_set_same]
    have : getNextAllowed st.nextAllowed h' ≤ max now (st.get h') :=
      le_max_right _ _
    unfold LimiterState.get at this
    omega
  · rw [getNextAllowed_set_other _ _ _ _ hh]

/-- Every start time handed out from a limiter state respects that state's
earliest allowed start time for the request's host. -/
theorem runRequests_start_ge (d : Nat) (st : LimiterState)
    (reqs : List (String × Nat)) :
    ∀ p ∈ runRequests d st reqs, st.get p.1 ≤ p.2 := by
  induction reqs generalizing st with
  | nil =>
      intro p hp
      simp [runRequests] at hp
  | cons hd tl ih =>
      obtain ⟨host, now⟩ := hd
      intro p hp
      simp only [runRequests, List.mem_cons] at hp
      rcases hp with hp | hp
      · rw [hp]
        exact le_max_right _ _
      · have h1 := ih ((acquire d st host now).2) p hp
        have h2 := acquire_get_mono d st host now p.1
        omega

/-- C6: for a host with configured minimum inter-request interval `d`, no
two Fetcher calls to that host start less than `d` apart: in every
serialized interleaving of (possibly concurrent) callers through the shared
per-host limiter, any earlier call to a host starts at least `d` before any
later call to the same host. -/
theorem C6_min_interval_per_host (d : Nat) (st : LimiterState)
    (reqs : List (String × Nat)) :
    (runRequests d st reqs).Pairwise
      (fun a b => a.1 = b.1 → a.2 + d ≤ b.2) := by
  induction reqs generalizing st with
  | nil => simp [runRequests]
  | cons hd tl ih =>
      obtain ⟨host, now⟩ := hd
      simp only [runRequests]
      refine List.Pairwise.cons ?_ (ih ((acquire d st host now).2))
      intro p hp heq
      have hge := runRequests_start_ge d ((acquire d st host now).2) tl p hp
      rw [← heq] at hge
      unfold acquire LimiterState.get LimiterState.set at hge
      rw [getNextAllowed_set_same] at hge
      exact hge

/-- Witness for C6 on a concrete interleaving of two hosts with interval
5, including a call arriving before the host's next allowed time. -/
theorem C6_min_interval_per_host_witness :
    (runRequests 5 { nextAllowed := [] }
        [("a.example", 0), ("b.example", 1), ("a.example", 2),
          ("a.example", 20)]).Pairwise
      (fun a b => a.1 = b.1 → a.2 + 5 ≤ b.2) :=
  C6_min_interval_per_host 5 { nextAllowed := [] }
    [("a.example", 0), ("b.example", 1), ("a.example", 2), ("a.example", 20)]

end PLC
